import Mathlib

/-!
Shallow embedding of `src/main.py` (class `Version`): a semantic-version parser,
validator, comparator and formatter.  Python strings are modelled as `List Char`,
Python `None`-able strings as `Option (List Char)`, raised `ValueError`s as the
`Except VersionError` monad (one constructor per distinct error message shape),
and Python's `NotImplemented` return of the comparison dunders as `none` in
`Option Bool`.
-/

/-- Python `str` modelled as a list of characters. -/
abbrev Str := List Char

/-- Python `c in s` plus `s.split(c, 1)`: `none` when `c` does not occur in `s`,
otherwise the part before the first occurrence of `c` and the part after it. -/
def splitFirst (c : Char) : Str → Option (Str × Str)
  | [] => none
  | x :: xs =>
    if x = c then some ([], xs)
    else
      match splitFirst c xs with
      | none => none
      | some (a, b) => some (x :: a, b)

/-- Python `s.split(c)` for a one-character separator: split on every
occurrence; the empty string splits to `[""]`. -/
def splitAll (c : Char) : Str → List Str
  | [] => [[]]
  | x :: xs =>
    match splitAll c xs with
    | [] => [[]]
    | a :: rest => if x = c then [] :: a :: rest else (x :: a) :: rest

/-- Joining with a one-character separator (inverse of `splitAll`, used to state
reconstruction lemmas). -/
def joinSep (c : Char) : List Str → Str
  | [] => []
  | [x] => x
  | x :: y :: ys => x ++ c :: joinSep c (y :: ys)

/-- Python string `<`: lexicographic comparison by code point. -/
def strLt : Str → Str → Bool
  | [], [] => false
  | [], _ :: _ => true
  | _ :: _, [] => false
  | a :: s1, b :: s2 => if a < b then true else if b < a then false else strLt s1 s2

/-- Python string `>` (`p1 > p2` in `Version.__gt__`). -/
def strGt (s1 s2 : Str) : Bool := strLt s2 s1

/-- The character set `set("0123456789")` of `main.py`. -/
def DIGIT_CHARS : Str := ['0', '1', '2', '3', '4', '5', '6', '7', '8', '9']

/-- The character set
`set("0123456789ABCDEFGHIJKLMNOPQRSTUVWXYZabcdefghijklmnopqrstuvwxyz-")`
of `main.py` (alphanumeric plus hyphen). -/
def ALNUM_HYPHEN_CHARS : Str :=
  ['0', '1', '2', '3', '4', '5', '6', '7', '8', '9',
   'A', 'B', 'C', 'D', 'E', 'F', 'G', 'H', 'I', 'J', 'K', 'L', 'M',
   'N', 'O', 'P', 'Q', 'R', 'S', 'T', 'U', 'V', 'W', 'X', 'Y', 'Z',
   'a', 'b', 'c', 'd', 'e', 'f', 'g', 'h', 'i', 'j', 'k', 'l', 'm',
   'n', 'o', 'p', 'q', 'r', 's', 't', 'u', 'v', 'w', 'x', 'y', 'z', '-']

/-- Python `str.isdigit` on the ASCII strings this program feeds it: nonempty
and every character a decimal digit. -/
def pyIsdigit (s : Str) : Bool := !s.isEmpty && s.all (fun c => DIGIT_CHARS.contains c)

/-- Decimal value of a digit character. -/
def charVal (c : Char) : Nat := c.toNat - 48

/-- Python `int()` on a digit-only string: its decimal value (the digit values,
least significant first, interpreted in base 10). -/
def strToNat (s : Str) : Nat := Nat.ofDigits 10 ((s.map charVal).reverse)

/-- Digit character of a decimal value below 10. -/
def digitToChar (d : Nat) : Char := Char.ofNat (48 + d)

/-- Python `str()` on a non-negative integer: its shortest decimal
representation. -/
def natRepr (n : Nat) : Str :=
  if n = 0 then ['0'] else ((Nat.digits 10 n).map digitToChar).reverse

/-- The `Version.Identifier` enum of `main.py`. -/
inductive Identifier where
  | major
  | minor
  | patch
  | pre_release
  | build
deriving DecidableEq

/-- The distinct `ValueError` shapes raised by `main.py` (one constructor per
distinct message format). -/
inductive VersionError where
  | coreArity
  | emptyIdentifier (kind : Identifier)
  | leadingZero (kind : Identifier)
  | invalidCharacter (kind : Identifier) (value : Str)
  | unknownIdentifier
deriving DecidableEq

/-- The identifier dictionary produced by `Version._parse_version_string`:
after a successful parse the three core slots are always filled, the two
optional slots may be `None`. -/
structure ParsedIdentifiers where
  major : Str
  minor : Str
  patch : Str
  pre_release : Option Str
  build : Option Str
deriving DecidableEq

/-- The `SEMVER_IDENTIFIER_VALID_CHARS` dictionary; `.get` on a dictionary
returns an optional value, hence `Option`. -/
def SEMVER_IDENTIFIER_VALID_CHARS (i : Identifier) : Option Str :=
  match i with
  | .major => some DIGIT_CHARS
  | .minor => some DIGIT_CHARS
  | .patch => some DIGIT_CHARS
  | .pre_release => some ALNUM_HYPHEN_CHARS
  | .build => some ALNUM_HYPHEN_CHARS

/-- `Version._validate`: empty check, charset lookup, leading-zero check for
non-build identifiers, then the character loop (which raises the same
`InvalidCharacter` error, carrying the whole value, whichever character
offends). -/
def validate (i : Identifier) (value : Str) : Except VersionError Unit :=
  if value = [] then .error (.emptyIdentifier i)
  else
    match SEMVER_IDENTIFIER_VALID_CHARS i with
    | none => .error .unknownIdentifier
    | some valid_chars =>
      if i ≠ Identifier.build ∧ 1 < value.length ∧ pyIsdigit value = true ∧
          value.headD ' ' = '0' then
        .error (.leadingZero i)
      else if value.all (fun c => valid_chars.contains c) then .ok ()
      else .error (.invalidCharacter i value)

/-- The per-part loop of `Version._validate_identiiers` over the dot-split
segments of an optional identifier. -/
def validateParts (i : Identifier) : List Str → Except VersionError Unit
  | [] => .ok ()
  | p :: ps =>
    match validate i p with
    | .error e => .error e
    | .ok () => validateParts i ps

/-- Optional-identifier branch of `Version._validate_identiiers`: `None` is
skipped, otherwise the raw string is split on `'.'` and each part validated. -/
def validateOptional (i : Identifier) : Option Str → Except VersionError Unit
  | none => .ok ()
  | some v => validateParts i (splitAll '.' v)

/-- `Version._validate_identiiers` (name kept from the source): core
identifiers first in order, then the optional identifiers. -/
def validate_identiiers (ids : ParsedIdentifiers) : Except VersionError Unit := do
  validate .major ids.major
  validate .minor ids.minor
  validate .patch ids.patch
  validateOptional .pre_release ids.pre_release
  validateOptional .build ids.build

/-- `Version._parse_version_string`: strip build metadata at the first `'+'`,
then the pre-release at the first `'-'` of the remainder, then split the core
on `'.'`, which must give exactly three identifiers. -/
def parse_version_string (version : Str) : Except VersionError ParsedIdentifiers :=
  let (version, build) :=
    match splitFirst '+' version with
    | none => (version, none)
    | some (rest, b) => (rest, some b)
  let (version, pre_release) :=
    match splitFirst '-' version with
    | none => (version, none)
    | some (rest, p) => (rest, some p)
  match splitAll '.' version with
  | [ma, mi, pa] => .ok ⟨ma, mi, pa, pre_release, build⟩
  | _ => .error .coreArity

/-- The immutable `Version` value: core identifiers parsed to integers, the
optional identifiers stored as their raw strings. -/
structure Version where
  major : Nat
  minor : Nat
  patch : Nat
  pre_release : Option Str
  build : Option Str
deriving DecidableEq

/-- `Version.__init__` as a fallible constructor: parse, validate, then build
the value (`int()` on the core slots, raw strings for the optional slots). -/
def construct (version : Str) : Except VersionError Version :=
  match parse_version_string version with
  | .error e => .error e
  | .ok ids =>
    match validate_identiiers ids with
    | .error e => .error e
    | .ok () =>
      .ok { major := strToNat ids.major, minor := strToNat ids.minor,
            patch := strToNat ids.patch, pre_release := ids.pre_release,
            build := ids.build }

/-- `Version.__str__`: `major.minor.patch`, then `-pre_release` when
`pre_release` is truthy, then `+build` when `build` is truthy. -/
def Version.str (v : Version) : Str :=
  natRepr v.major ++ '.' :: natRepr v.minor ++ '.' :: natRepr v.patch
  ++ (match v.pre_release with
      | some p => if p = [] then [] else '-' :: p
      | none => [])
  ++ (match v.build with
      | some b => if b = [] then [] else '+' :: b
      | none => [])

/-- `Version.__eq__` on two Versions: core triple and raw pre-release string;
build is not consulted. -/
def Version.beqV (a b : Version) : Bool :=
  decide (a.major = b.major) && decide (a.minor = b.minor) &&
  decide (a.patch = b.patch) && decide (a.pre_release = b.pre_release)

/-- The pre-release segment loop of `Version.__gt__`: the `zip` loop with its
early returns, followed by the length comparison once one list is exhausted. -/
def cmpPreParts : List Str → List Str → Bool
  | p1 :: t1, p2 :: t2 =>
    if p1 = p2 then cmpPreParts t1 t2
    else if pyIsdigit p1 && pyIsdigit p2 then decide (strToNat p1 > strToNat p2)
    else if pyIsdigit p1 then false
    else if pyIsdigit p2 then true
    else strGt p1 p2
  | l1, l2 => decide (l1.length > l2.length)

/-- `Version.__gt__` on two Versions: core identifiers in order, then the
release/pre-release rule, then the segment loop (a falsy pre-release string
yields an empty segment list, mirroring `x.split(".") if x else []`). -/
def Version.gtV (a b : Version) : Bool :=
  if a.major > b.major then true
  else if a.major < b.major then false
  else if a.minor > b.minor then true
  else if a.minor < b.minor then false
  else if a.patch > b.patch then true
  else if a.patch < b.patch then false
  else
    match a.pre_release, b.pre_release with
    | none, none => false
    | none, some _ => true
    | some _, none => false
    | some p1, some p2 =>
      cmpPreParts (if p1 = [] then [] else splitAll '.' p1)
                  (if p2 = [] then [] else splitAll '.' p2)

/-- `__lt__` as `functools.total_ordering` derives it from `__gt__` on Version
operands: `not (a > b) and a != b`. -/
def Version.ltV (a b : Version) : Bool := !(a.gtV b) && !(a.beqV b)

/-- `__le__` derived by `functools.total_ordering`: `not (a > b)`. -/
def Version.leV (a b : Version) : Bool := !(a.gtV b)

/-- `__ge__` derived by `functools.total_ordering`: `a > b or a == b`. -/
def Version.geV (a b : Version) : Bool := a.gtV b || a.beqV b

/-- Python's default `__ne__` from `__eq__`. -/
def Version.neV (a b : Version) : Bool := !(a.beqV b)

/-- A Python value handed to a comparison dunder: a `Version` or some
non-Version value (an int or a string, as in the tests). -/
inductive PyValue where
  | ver (v : Version) : PyValue
  | int (n : Int) : PyValue
  | str (s : Str) : PyValue

/-- `Version.__eq__` with the `safe_comparison` guard: `none` models the
`NotImplemented` return for a non-Version operand. -/
def py_eq (a : Version) : PyValue → Option Bool
  | .ver b => some (a.beqV b)
  | _ => none

/-- `Version.__gt__` with the `safe_comparison` guard. -/
def py_gt (a : Version) : PyValue → Option Bool
  | .ver b => some (a.gtV b)
  | _ => none

/-- Python's default `__ne__`: negation of `__eq__`, propagating
`NotImplemented`. -/
def py_ne (a : Version) : PyValue → Option Bool
  | .ver b => some (a.neV b)
  | _ => none

/-- `__lt__` derived by `functools.total_ordering` from `__gt__`, propagating
`NotImplemented`. -/
def py_lt (a : Version) : PyValue → Option Bool
  | .ver b => some (a.ltV b)
  | _ => none

/-- `__le__` derived by `functools.total_ordering` from `__gt__`, propagating
`NotImplemented`. -/
def py_le (a : Version) : PyValue → Option Bool
  | .ver b => some (a.leV b)
  | _ => none

/-- `__ge__` derived by `functools.total_ordering` from `__gt__` and `__eq__`,
propagating `NotImplemented`. -/
def py_ge (a : Version) : PyValue → Option Bool
  | .ver b => some (a.geV b)
  | _ => none

/-- The core section of an input string as the spec describes it: the input
after removing the build part at the first `'+'` and then the pre-release part
at the first `'-'`. -/
def coreSection (s : Str) : Str :=
  let s1 := match splitFirst '+' s with | none => s | some (a, _) => a
  match splitFirst '-' s1 with | none => s1 | some (a, _) => a

/-- Pre-release precedence as the spec states it: compare dot-separated
segment lists pairwise in order — identical segments continue; two purely
numeric segments compare as integers; a numeric segment is always below a
non-numeric one; two non-numeric segments compare lexicographically; when all
compared pairs are equal, the longer segment list is greater. -/
def specPreReleaseGt : List Str → List Str → Bool
  | s1 :: t1, s2 :: t2 =>
    if s1 = s2 then specPreReleaseGt t1 t2
    else if pyIsdigit s1 && pyIsdigit s2 then decide (strToNat s1 > strToNat s2)
    else if pyIsdigit s1 && !pyIsdigit s2 then false
    else if !pyIsdigit s1 && pyIsdigit s2 then true
    else strGt s1 s2
  | l1, l2 => decide (l1.length > l2.length)

/-! ## Helper lemmas -/

theorem cmpPreParts_self : ∀ l, cmpPreParts l l = false
  | [] => rfl
  | p :: t => by simp [cmpPreParts, cmpPreParts_self t]

theorem beqV_iff (a b : Version) :
    a.beqV b = true ↔
      a.major = b.major ∧ a.minor = b.minor ∧ a.patch = b.patch ∧
        a.pre_release = b.pre_release := by
  simp [Version.beqV, and_assoc]

theorem beq_not_gt (a b : Version) (h : a.beqV b = true) : a.gtV b = false := by
  obtain ⟨h1, h2, h3, h4⟩ := (beqV_iff a b).mp h
  unfold Version.gtV
  rw [h1, h2, h3, h4]
  simp only [lt_irrefl, if_false, if_neg (lt_irrefl _)]
  cases b.pre_release with
  | none => simp
  | some p => simp [cmpPreParts_self]

theorem cmpPreParts_eq_spec : ∀ l1 l2, cmpPreParts l1 l2 = specPreReleaseGt l1 l2
  | [], [] => rfl
  | [], _ :: _ => rfl
  | _ :: _, [] => rfl
  | p1 :: t1, p2 :: t2 => by
    simp only [cmpPreParts, specPreReleaseGt]
    by_cases he : p1 = p2
    · simp [he, cmpPreParts_eq_spec t1 t2]
    · simp only [he, if_false]
      cases hd1 : pyIsdigit p1 <;> cases hd2 : pyIsdigit p2 <;> simp

/-! ## Claims -/

/-- C2: the comparator is a strict total order compatible with equality: for
every two Versions `a` and `b` exactly one of `a < b`, `a == b`, `a > b`
holds, where `<` is derived as `not (a == b) and not (a > b)`. -/
theorem comparison_trichotomy (a b : Version) :
    (a.ltV b = true ∧ a.beqV b = false ∧ a.gtV b = false) ∨
    (a.ltV b = false ∧ a.beqV b = true ∧ a.gtV b = false) ∨
    (a.ltV b = false ∧ a.beqV b = false ∧ a.gtV b = true) := by
  by_cases he : a.beqV b = true
  · exact Or.inr (Or.inl ⟨by simp [Version.ltV, he], he, beq_not_gt a b he⟩)
  · rw [Bool.not_eq_true] at he
    by_cases hg : a.gtV b = true
    · exact Or.inr (Or.inr ⟨by simp [Version.ltV, hg], he, hg⟩)
    · rw [Bool.not_eq_true] at hg
      exact Or.inl ⟨by simp [Version.ltV, hg, he], he, hg⟩

/-- C3: `==` holds iff major, minor, patch and the raw pre-release strings
agree; build is never consulted, so `construct("1.0.0+a") == construct("1.0.0+b")`;
and the relation is reflexive, symmetric and transitive. -/
theorem eq_characterization :
    (∀ a b : Version, a.beqV b = true ↔
       a.major = b.major ∧ a.minor = b.minor ∧ a.patch = b.patch ∧
         a.pre_release = b.pre_release) ∧
    (∀ a : Version, a.beqV a = true) ∧
    (∀ a b : Version, a.beqV b = true → b.beqV a = true) ∧
    (∀ a b c : Version, a.beqV b = true → b.beqV c = true → a.beqV c = true) ∧
    construct "1.0.0+a".data = .ok ⟨1, 0, 0, none, some ['a']⟩ ∧
    construct "1.0.0+b".data = .ok ⟨1, 0, 0, none, some ['b']⟩ ∧
    (Version.mk 1 0 0 none (some ['a'])).beqV (Version.mk 1 0 0 none (some ['b'])) = true := by
  refine ⟨beqV_iff, ?_, ?_, ?_, rfl, rfl, rfl⟩
  · intro a; simp [beqV_iff]
  · intro a b h
    obtain ⟨h1, h2, h3, h4⟩ := (beqV_iff a b).mp h
    exact (beqV_iff b a).mpr ⟨h1.symm, h2.symm, h3.symm, h4.symm⟩
  · intro a b c hab hbc
    obtain ⟨h1, h2, h3, h4⟩ := (beqV_iff a b).mp hab
    obtain ⟨g1, g2, g3, g4⟩ := (beqV_iff b c).mp hbc
    exact (beqV_iff a c).mpr ⟨h1.trans g1, h2.trans g2, h3.trans g3, h4.trans g4⟩

/-- C4: with equal core triples, a version without pre-release is greater than
one with a pre-release (and not conversely); when both lack a pre-release,
neither is greater. -/
theorem release_gt_prerelease (a b : Version)
    (h1 : a.major = b.major) (h2 : a.minor = b.minor) (h3 : a.patch = b.patch) :
    (a.pre_release = none → b.pre_release ≠ none →
       a.gtV b = true ∧ b.gtV a = false) ∧
    (a.pre_release = none → b.pre_release = none →
       a.gtV b = false ∧ b.gtV a = false) := by
  unfold Version.gtV
  rw [h1, h2, h3]
  constructor
  · intro ha hb
    cases hbp : b.pre_release with
    | none => exact absurd hbp hb
    | some p => simp [ha, hbp]
  · intro ha hb
    simp [ha, hb]

/-- C4 witness at `1.0.0` versus `1.0.0-a`. -/
theorem release_gt_prerelease_witness :
    (Version.mk 1 0 0 none none).gtV (Version.mk 1 0 0 (some ['a']) none) = true ∧
    (Version.mk 1 0 0 (some ['a']) none).gtV (Version.mk 1 0 0 none none) = false :=
  (release_gt_prerelease (Version.mk 1 0 0 none none)
      (Version.mk 1 0 0 (some ['a']) none) rfl rfl rfl).1 rfl (by simp)

/-- C6: every comparison dunder applied to a Version and a non-Version value
returns the incomparable indicator (`NotImplemented`, modelled as `none`)
rather than raising. -/
theorem non_version_incomparable (v : Version) (x : PyValue)
    (h : ∀ w : Version, x ≠ PyValue.ver w) :
    py_eq v x = none ∧ py_ne v x = none ∧ py_lt v x = none ∧
    py_gt v x = none ∧ py_le v x = none ∧ py_ge v x = none := by
  cases x with
  | ver w => exact absurd rfl (h w)
  | int n => exact ⟨rfl, rfl, rfl, rfl, rfl, rfl⟩
  | str s => exact ⟨rfl, rfl, rfl, rfl, rfl, rfl⟩

/-- C6 witness: comparing `Version("1.0.0")` with the integer 3. -/
theorem non_version_incomparable_witness :
    py_eq (Version.mk 1 0 0 none none) (PyValue.int 3) = none ∧
    py_ne (Version.mk 1 0 0 none none) (PyValue.int 3) = none ∧
    py_lt (Version.mk 1 0 0 none none) (PyValue.int 3) = none ∧
    py_gt (Version.mk 1 0 0 none none) (PyValue.int 3) = none ∧
    py_le (Version.mk 1 0 0 none none) (PyValue.int 3) = none ∧
    py_ge (Version.mk 1 0 0 none none) (PyValue.int 3) = none :=
  non_version_incomparable (Version.mk 1 0 0 none none) (PyValue.int 3)
    (fun _ h => PyValue.noConfusion h)

/-- C9: on `"1.0.0+build+meta"` only the first `'+'` is the build separator;
the remainder stays embedded in the raw build string, and validation rejects
it with an invalid-character error for the build identifier (there is no
multiple-separator error in the error type at all). -/
theorem second_plus_invalid_char :
    parse_version_string "1.0.0+build+meta".data =
      .ok ⟨['1'], ['0'], ['0'], none, some "build+meta".data⟩ ∧
    construct "1.0.0+build+meta".data =
      .error (.invalidCharacter .build "build+meta".data) :=
  ⟨rfl, rfl⟩

/-- C10: the empty string contains no `'+'` or `'-'`, splits on `'.'` into one
empty segment rather than three, and `construct` fails with the core-arity
error before any per-segment validation. -/
theorem empty_string_core_arity :
    splitFirst '+' [] = none ∧ splitFirst '-' [] = none ∧
    splitAll '.' [] = [[]] ∧
    parse_version_string [] = .error .coreArity ∧
    construct [] = .error .coreArity :=
  ⟨rfl, rfl, rfl, rfl, rfl⟩

theorem validate_ne_coreArity (i : Identifier) (v : Str) :
    validate i v ≠ .error .coreArity := by
  unfold validate
  split
  · simp
  · split
    · simp
    · split
      · simp
      · split <;> simp

theorem bind_ne_error {α β : Type} (m : Except VersionError α)
    (f : α → Except VersionError β) (e0 : VersionError)
    (hm : m ≠ .error e0) (hf : ∀ a, f a ≠ .error e0) :
    (m >>= f) ≠ .error e0 := by
  cases m with
  | error e =>
    intro hc
    injection hc with h
    exact hm (by rw [h])
  | ok a => exact hf a

theorem validateParts_ne_coreArity (i : Identifier) :
    ∀ l : List Str, validateParts i l ≠ .error .coreArity
  | [] => by simp [validateParts]
  | p :: ps => by
    simp only [validateParts]
    split
    · rename_i e he
      intro hc
      injection hc with h
      exact validate_ne_coreArity i p (h ▸ he)
    · exact validateParts_ne_coreArity i ps

theorem validateOptional_ne_coreArity (i : Identifier) (o : Option Str) :
    validateOptional i o ≠ .error .coreArity := by
  cases o with
  | none => simp [validateOptional]
  | some v => exact validateParts_ne_coreArity i _

theorem validate_identiiers_ne_coreArity (ids : ParsedIdentifiers) :
    validate_identiiers ids ≠ .error .coreArity := by
  unfold validate_identiiers
  refine bind_ne_error _ _ _ (validate_ne_coreArity _ _) (fun _ => ?_)
  refine bind_ne_error _ _ _ (validate_ne_coreArity _ _) (fun _ => ?_)
  refine bind_ne_error _ _ _ (validate_ne_coreArity _ _) (fun _ => ?_)
  refine bind_ne_error _ _ _ (validateOptional_ne_coreArity _ _) (fun _ => ?_)
  exact validateOptional_ne_coreArity _ _

theorem parse_coreArity_iff (s : Str) :
    parse_version_string s = .error .coreArity ↔
      (splitAll '.' (coreSection s)).length ≠ 3 := by
  unfold parse_version_string coreSection
  cases h1 : splitFirst '+' s with
  | none =>
    cases h2 : splitFirst '-' s with
    | none =>
      rcases hl : splitAll '.' s with _ | ⟨a, _ | ⟨b, _ | ⟨c, _ | ⟨d, t⟩⟩⟩⟩ <;> simp [h1, h2, hl]
    | some pr =>
      obtain ⟨core, p⟩ := pr
      rcases hl : splitAll '.' core with _ | ⟨a, _ | ⟨b, _ | ⟨c, _ | ⟨d, t⟩⟩⟩⟩ <;> simp [h1, h2, hl]
  | some bp =>
    obtain ⟨rest, b⟩ := bp
    cases h2 : splitFirst '-' rest with
    | none =>
      rcases hl : splitAll '.' rest with _ | ⟨a, _ | ⟨b', _ | ⟨c, _ | ⟨d, t⟩⟩⟩⟩ <;> simp [h1, h2, hl]
    | some pr =>
      obtain ⟨core, p⟩ := pr
      rcases hl : splitAll '.' core with _ | ⟨a, _ | ⟨b', _ | ⟨c, _ | ⟨d, t⟩⟩⟩⟩ <;> simp [h1, h2, hl]

theorem splitFirst_eq (c : Char) : ∀ (s a b : Str), splitFirst c s = some (a, b) → s = a ++ c :: b
  | [], a, b => by simp [splitFirst]
  | x :: xs, a, b => by
    simp only [splitFirst]
    by_cases hxc : x = c
    · rw [if_pos hxc]
      intro h
      simp only [Option.some.injEq, Prod.mk.injEq] at h
      obtain ⟨rfl, rfl⟩ := h
      simp [hxc]
    · rw [if_neg hxc]
      cases hs : splitFirst c xs with
      | none => simp
      | some pr =>
        obtain ⟨a', b'⟩ := pr
        intro h
        simp only [Option.some.injEq, Prod.mk.injEq] at h
        obtain ⟨rfl, rfl⟩ := h
        have := splitFirst_eq c xs a' b' hs
        simp [← this]

theorem splitAll_ne_nil (c : Char) : ∀ s : Str, splitAll c s ≠ []
  | [] => by simp [splitAll]
  | x :: xs => by
    rcases hs : splitAll c xs with _ | ⟨a, rest⟩
    · simp [splitAll, hs]
    · by_cases hxc : x = c <;> simp [splitAll, hs, hxc]

theorem joinSep_splitAll (c : Char) : ∀ s : Str, joinSep c (splitAll c s) = s
  | [] => rfl
  | x :: xs => by
    have ih := joinSep_splitAll c xs
    rcases hs : splitAll c xs with _ | ⟨a, rest⟩
    · exact absurd hs (splitAll_ne_nil c xs)
    · rw [hs] at ih
      by_cases hxc : x = c
      · subst hxc
        simp only [splitAll, hs]
        simp only [if_pos rfl, joinSep]
        simpa using ih
      · simp only [splitAll, hs, if_neg hxc]
        cases rest with
        | nil =>
          simp only [joinSep] at ih ⊢
          rw [ih]
        | cons y ys =>
          simp only [joinSep] at ih ⊢
          rw [List.cons_append, ih]

theorem digit_char_facts (c : Char) (h : c ∈ DIGIT_CHARS) :
    digitToChar (charVal c) = c ∧ charVal c < 10 ∧ (c ≠ '0' → charVal c ≠ 0) := by
  have h' : c = '0' ∨ c = '1' ∨ c = '2' ∨ c = '3' ∨ c = '4' ∨ c = '5' ∨ c = '6' ∨
      c = '7' ∨ c = '8' ∨ c = '9' := by
    simpa [DIGIT_CHARS] using h
  rcases h' with rfl | rfl | rfl | rfl | rfl | rfl | rfl | rfl | rfl | rfl <;> decide

theorem map_id_on {f : Char → Char} : ∀ (l : Str), (∀ c ∈ l, f c = c) → l.map f = l
  | [], _ => rfl
  | x :: xs, h => by
    simp only [List.map_cons]
    rw [h x (by simp), map_id_on xs (fun c hc => h c (by simp [hc]))]

theorem natRepr_strToNat (s : Str) (hne : s ≠ [])
    (hdig : ∀ c ∈ s, c ∈ DIGIT_CHARS)
    (hlz : 1 < s.length → s.headD ' ' ≠ '0') :
    natRepr (strToNat s) = s := by
  by_cases h0 : s.headD ' ' = '0'
  · have hs : s = ['0'] := by
      cases s with
      | nil => exact absurd rfl hne
      | cons c cs =>
        cases cs with
        | nil => simp only [List.headD_cons] at h0; rw [h0]
        | cons d ds => exact absurd h0 (hlz (by simp))
    subst hs
    decide
  · cases s with
    | nil => exact absurd rfl hne
    | cons c cs =>
      set L : List Nat := ((c :: cs).map charVal).reverse with hL
      have hdall : ∀ l ∈ L, l < 10 := by
        intro l hl
        rw [hL, List.mem_reverse, List.mem_map] at hl
        obtain ⟨ch, hch, rfl⟩ := hl
        exact (digit_char_facts ch (hdig ch hch)).2.1
      have hlast : ∀ h : L ≠ [], L.getLast h ≠ 0 := by
        intro h
        have hLe : L = (cs.map charVal).reverse ++ [charVal c] := by
          rw [hL]; simp
        have hq : L.getLast? = some (charVal c) := by
          rw [hLe, List.getLast?_append_of_ne_nil _ (by simp)]
          simp
        rw [List.getLast?_eq_getLast_of_ne_nil h] at hq
        have hc0 : charVal c ≠ 0 :=
          (digit_char_facts c (hdig c (by simp))).2.2 (by simpa using h0)
        intro hz
        rw [hz] at hq
        exact hc0 (by injection hq with h'; exact h'.symm)
      have hd : Nat.digits 10 (Nat.ofDigits 10 L) = L :=
        Nat.digits_ofDigits 10 (by norm_num) L hdall hlast
      have hnz : Nat.ofDigits 10 L ≠ 0 := by
        intro hz
        rw [hz] at hd
        have : L ≠ [] := by rw [hL]; simp
        exact this (by rw [← hd]; simp)
      have hstr : strToNat (c :: cs) = Nat.ofDigits 10 L := by rw [strToNat, ← hL]
      rw [hstr, natRepr, if_neg hnz, hd, hL]
      rw [List.map_reverse, List.reverse_reverse, List.map_map]
      exact map_id_on _ (fun ch hch => (digit_char_facts ch (hdig ch hch)).1)

theorem validate_core_ok (i : Identifier) (v : Str)
    (hi : SEMVER_IDENTIFIER_VALID_CHARS i = some DIGIT_CHARS)
    (hbuild : i ≠ Identifier.build)
    (h : validate i v = .ok ()) :
    v ≠ [] ∧ (∀ c ∈ v, c ∈ DIGIT_CHARS) ∧
      (1 < v.length → v.headD ' ' ≠ '0') := by
  unfold validate at h
  by_cases hv : v = []
  · rw [if_pos hv] at h; exact Except.noConfusion h
  · rw [if_neg hv, hi] at h
    simp only at h
    by_cases hcond : i ≠ Identifier.build ∧ 1 < v.length ∧ pyIsdigit v = true ∧
        v.headD ' ' = '0'
    · rw [if_pos hcond] at h; exact Except.noConfusion h
    · rw [if_neg hcond] at h
      by_cases hall : v.all (fun c => DIGIT_CHARS.contains c) = true
      · have hisd : pyIsdigit v = true := by
          cases v with
          | nil => exact absurd rfl hv
          | cons a l => simpa [pyIsdigit] using hall
        refine ⟨hv, by simpa [List.all_eq_true] using hall, ?_⟩
        intro hlen hhead
        exact hcond ⟨hbuild, hlen, hisd, hhead⟩
      · rw [if_neg hall] at h; exact Except.noConfusion h

theorem validate_some_part_ok (i : Identifier) (v : Str)
    (h : validateOptional i (some v) = .ok ()) : v ≠ [] := by
  intro hv
  subst hv
  simp only [validateOptional, splitAll, validateParts, validate] at h
  exact Except.noConfusion h

theorem bind_ok {α β : Type} {m : Except VersionError α} {f : α → Except VersionError β}
    {b : β} (h : (m >>= f) = .ok b) : ∃ a, m = .ok a ∧ f a = .ok b := by
  cases m with
  | error e => exact Except.noConfusion h
  | ok a => exact ⟨a, rfl, h⟩

theorem validate_identiiers_ok (ids : ParsedIdentifiers)
    (h : validate_identiiers ids = .ok ()) :
    validate .major ids.major = .ok () ∧ validate .minor ids.minor = .ok () ∧
    validate .patch ids.patch = .ok () ∧
    validateOptional .pre_release ids.pre_release = .ok () ∧
    validateOptional .build ids.build = .ok () := by
  unfold validate_identiiers at h
  obtain ⟨u1, h1, h⟩ := bind_ok h
  obtain ⟨u2, h2, h⟩ := bind_ok h
  obtain ⟨u3, h3, h⟩ := bind_ok h
  obtain ⟨u4, h4, h⟩ := bind_ok h
  cases u1; cases u2; cases u3; cases u4
  exact ⟨h1, h2, h3, h4, h⟩

theorem core_join (c : Char) (s' : Str) (ma mi pa : Str)
    (h : splitAll c s' = [ma, mi, pa]) : s' = ma ++ (c :: (mi ++ (c :: pa))) := by
  have hj := joinSep_splitAll c s'
  rw [h] at hj
  simp only [joinSep] at hj
  exact hj.symm

/-- C1: every valid version string is reproduced verbatim by the formatter
(core digits through the decimal roundtrip, pre-release and build raw strings
verbatim), and re-parsing the rendered string yields the same Version. -/
theorem construct_str_roundtrip (s : Str) (v : Version) (h : construct s = .ok v) :
    Version.str v = s ∧ construct (Version.str v) = .ok v := by
  suffices hs : Version.str v = s from ⟨hs, by rw [hs]; exact h⟩
  unfold construct at h
  cases hp : parse_version_string s with
  | error e => simp only [hp] at h; exact Except.noConfusion h
  | ok ids =>
    simp only [hp] at h
    cases hv : validate_identiiers ids with
    | error e => simp only [hv] at h; exact Except.noConfusion h
    | ok u =>
      cases u
      simp only [hv] at h
      simp only [Except.ok.injEq] at h
      subst h
      unfold parse_version_string at hp
      cases hplus : splitFirst '+' s with
      | none =>
        cases hminus : splitFirst '-' s with
        | none =>
          rcases hsp : splitAll '.' s with _ | ⟨ma, _ | ⟨mi, _ | ⟨pa, _ | ⟨d, t⟩⟩⟩⟩ <;>
            simp only [hplus, hminus, hsp] at hp <;> try exact Except.noConfusion hp
          simp only [Except.ok.injEq] at hp
          subst hp
          obtain ⟨hma, hmi, hpa, hpre, hbld⟩ := validate_identiiers_ok _ hv
          simp only at hma hmi hpa hpre hbld
          obtain ⟨hma1, hma2, hma3⟩ := validate_core_ok .major ma rfl (by decide) hma
          obtain ⟨hmi1, hmi2, hmi3⟩ := validate_core_ok .minor mi rfl (by decide) hmi
          obtain ⟨hpa1, hpa2, hpa3⟩ := validate_core_ok .patch pa rfl (by decide) hpa
          have hcore := core_join '.' s ma mi pa hsp
          simp only [Version.str, natRepr_strToNat ma hma1 hma2 hma3,
            natRepr_strToNat mi hmi1 hmi2 hmi3, natRepr_strToNat pa hpa1 hpa2 hpa3]
          rw [hcore]
          simp
        | some pr =>
          obtain ⟨core, p⟩ := pr
          rcases hsp : splitAll '.' core with _ | ⟨ma, _ | ⟨mi, _ | ⟨pa, _ | ⟨d, t⟩⟩⟩⟩ <;>
            simp only [hplus, hminus, hsp] at hp <;> try exact Except.noConfusion hp
          simp only [Except.ok.injEq] at hp
          subst hp
          obtain ⟨hma, hmi, hpa, hpre, hbld⟩ := validate_identiiers_ok _ hv
          simp only at hma hmi hpa hpre hbld
          obtain ⟨hma1, hma2, hma3⟩ := validate_core_ok .major ma rfl (by decide) hma
          obtain ⟨hmi1, hmi2, hmi3⟩ := validate_core_ok .minor mi rfl (by decide) hmi
          obtain ⟨hpa1, hpa2, hpa3⟩ := validate_core_ok .patch pa rfl (by decide) hpa
          have hpne : p ≠ [] := validate_some_part_ok .pre_release p hpre
          have hcore := core_join '.' core ma mi pa hsp
          have hsplit := splitFirst_eq '-' s core p hminus
          simp only [Version.str, natRepr_strToNat ma hma1 hma2 hma3,
            natRepr_strToNat mi hmi1 hmi2 hmi3, natRepr_strToNat pa hpa1 hpa2 hpa3,
            if_neg hpne]
          rw [hsplit, hcore]
          simp
      | some bp =>
        obtain ⟨rest, bstr⟩ := bp
        have hsplitb := splitFirst_eq '+' s rest bstr hplus
        cases hminus : splitFirst '-' rest with
        | none =>
          rcases hsp : splitAll '.' rest with _ | ⟨ma, _ | ⟨mi, _ | ⟨pa, _ | ⟨d, t⟩⟩⟩⟩ <;>
            simp only [hplus, hminus, hsp] at hp <;> try exact Except.noConfusion hp
          simp only [Except.ok.injEq] at hp
          subst hp
          obtain ⟨hma, hmi, hpa, hpre, hbld⟩ := validate_identiiers_ok _ hv
          simp only at hma hmi hpa hpre hbld
          obtain ⟨hma1, hma2, hma3⟩ := validate_core_ok .major ma rfl (by decide) hma
          obtain ⟨hmi1, hmi2, hmi3⟩ := validate_core_ok .minor mi rfl (by decide) hmi
          obtain ⟨hpa1, hpa2, hpa3⟩ := validate_core_ok .patch pa rfl (by decide) hpa
          have hbne : bstr ≠ [] := validate_some_part_ok .build bstr hbld
          have hcore := core_join '.' rest ma mi pa hsp
          simp only [Version.str, natRepr_strToNat ma hma1 hma2 hma3,
            natRepr_strToNat mi hmi1 hmi2 hmi3, natRepr_strToNat pa hpa1 hpa2 hpa3,
            if_neg hbne]
          rw [hsplitb, hcore]
          simp
        | some pr =>
          obtain ⟨core, p⟩ := pr
          rcases hsp : splitAll '.' core with _ | ⟨ma, _ | ⟨mi, _ | ⟨pa, _ | ⟨d, t⟩⟩⟩⟩ <;>
            simp only [hplus, hminus, hsp] at hp <;> try exact Except.noConfusion hp
          simp only [Except.ok.injEq] at hp
          subst hp
          obtain ⟨hma, hmi, hpa, hpre, hbld⟩ := validate_identiiers_ok _ hv
          simp only at hma hmi hpa hpre hbld
          obtain ⟨hma1, hma2, hma3⟩ := validate_core_ok .major ma rfl (by decide) hma
          obtain ⟨hmi1, hmi2, hmi3⟩ := validate_core_ok .minor mi rfl (by decide) hmi
          obtain ⟨hpa1, hpa2, hpa3⟩ := validate_core_ok .patch pa rfl (by decide) hpa
          have hpne : p ≠ [] := validate_some_part_ok .pre_release p hpre
          have hbne : bstr ≠ [] := validate_some_part_ok .build bstr hbld
          have hsplitp := splitFirst_eq '-' rest core p hminus
          have hcore := core_join '.' core ma mi pa hsp
          simp only [Version.str, natRepr_strToNat ma hma1 hma2 hma3,
            natRepr_strToNat mi hmi1 hmi2 hmi3, natRepr_strToNat pa hpa1 hpa2 hpa3,
            if_neg hpne, if_neg hbne]
          rw [hsplitb, hsplitp, hcore]
          simp

/-- C1 witness at the valid string `"1.2.3-a.1+b5"`. -/
theorem construct_str_roundtrip_witness :
    construct "1.2.3-a.1+b5".data =
      .ok ⟨1, 2, 3, some ['a', '.', '1'], some ['b', '5']⟩ ∧
    (Version.str ⟨1, 2, 3, some ['a', '.', '1'], some ['b', '5']⟩ = "1.2.3-a.1+b5".data ∧
     construct (Version.str ⟨1, 2, 3, some ['a', '.', '1'], some ['b', '5']⟩) =
       .ok ⟨1, 2, 3, some ['a', '.', '1'], some ['b', '5']⟩) :=
  ⟨rfl, construct_str_roundtrip "1.2.3-a.1+b5".data
    ⟨1, 2, 3, some ['a', '.', '1'], some ['b', '5']⟩ rfl⟩

/-- C5: with equal core triples and both pre-releases present, `__gt__` is
decided exactly by the spec's dot-segment comparison (`specPreReleaseGt`):
equal segments continue, two numeric segments compare as integers, a numeric
segment is below a non-numeric one, non-numeric segments compare
lexicographically, and with all compared pairs equal the longer list wins. -/
theorem gtV_pre_release_spec (a b : Version) (p1 p2 : Str)
    (h1 : a.major = b.major) (h2 : a.minor = b.minor) (h3 : a.patch = b.patch)
    (hp1 : a.pre_release = some p1) (hp2 : b.pre_release = some p2)
    (hn1 : p1 ≠ []) (hn2 : p2 ≠ []) :
    a.gtV b = specPreReleaseGt (splitAll '.' p1) (splitAll '.' p2) := by
  unfold Version.gtV
  rw [h1, h2, h3, hp1, hp2]
  simp [hn1, hn2, cmpPreParts_eq_spec]

/-- C5 witness at `1.2.0-alpha.1` versus `1.2.0-alpha`. -/
theorem gtV_pre_release_spec_witness :
    (Version.mk 1 2 0 (some "alpha.1".data) none).gtV
        (Version.mk 1 2 0 (some "alpha".data) none) =
      specPreReleaseGt (splitAll '.' "alpha.1".data) (splitAll '.' "alpha".data) :=
  gtV_pre_release_spec _ _ _ _ rfl rfl rfl rfl rfl (by decide) (by decide)

/-- C7: `construct("01.0.0")` and `construct("1.0.0-01")` fail with the
leading-zero error, `construct("1.0.0-0")` succeeds, a leading zero in a build
segment is accepted, and the build validator can never produce a leading-zero
error at all. -/
theorem leading_zero_rules :
    construct "01.0.0".data = .error (.leadingZero .major) ∧
    construct "1.0.0-01".data = .error (.leadingZero .pre_release) ∧
    construct "1.0.0-0".data = .ok ⟨1, 0, 0, some ['0'], none⟩ ∧
    construct "1.0.0+01".data = .ok ⟨1, 0, 0, none, some ['0', '1']⟩ ∧
    (∀ seg : Str, validate Identifier.build seg ≠ .error (.leadingZero Identifier.build)) := by
  refine ⟨rfl, rfl, rfl, rfl, ?_⟩
  intro seg
  unfold validate
  split
  · simp
  · simp only [SEMVER_IDENTIFIER_VALID_CHARS]
    split
    · rename_i hcond
      exact absurd rfl hcond.1
    · split <;> simp

/-- C8: `construct` fails with the core-arity error exactly when the core
section (input minus build part at the first `'+'` and pre-release part at the
first `'-'`) does not split on `'.'` into exactly 3 segments; `"1.0"` gives
the core-arity error while `"1.0.0-"` and `"1.0.0+"` give empty-identifier
errors. -/
theorem core_arity_characterization :
    (∀ s : Str, construct s = .error .coreArity ↔
       (splitAll '.' (coreSection s)).length ≠ 3) ∧
    construct "1.0".data = .error .coreArity ∧
    construct "1.0.0-".data = .error (.emptyIdentifier .pre_release) ∧
    construct "1.0.0+".data = .error (.emptyIdentifier .build) := by
  refine ⟨?_, rfl, rfl, rfl⟩
  intro s
  rw [← parse_coreArity_iff]
  unfold construct
  cases hp : parse_version_string s with
  | error e => simp
  | ok ids =>
    simp only []
    constructor
    · intro hc
      exfalso
      cases hv : validate_identiiers ids with
      | error e =>
        rw [hv] at hc
        injection hc with h'
        exact validate_identiiers_ne_coreArity ids (h' ▸ hv)
      | ok u => cases u; rw [hv] at hc; exact Except.noConfusion hc
    · intro hc
      exact Except.noConfusion hc
